import Mathlib

/-!
Shallow embedding of the skeletal-animation and skinning core of the Leoric
glTF viewer (src/src/model/{joints,transform,animation}.rs, src/src/renderer.rs,
src/src/gui.rs).  Scalars are modelled as exact rationals; the two transcendental
quaternion primitives used by the rotation-interpolation path (normalize and
slerp, which need square roots and trigonometry) are taken as explicit function
parameters, so that every claim about the surrounding control flow and algebra
is exact.
-/

set_option maxHeartbeats 1000000

namespace Leoric

/-- A 3-component vector of exact rationals (glam Vec3 with f32 components). -/
structure Vec3 where
  x : ℚ
  y : ℚ
  z : ℚ
deriving DecidableEq

namespace Vec3

def add (a b : Vec3) : Vec3 := ⟨a.x + b.x, a.y + b.y, a.z + b.z⟩

def sub (a b : Vec3) : Vec3 := ⟨a.x - b.x, a.y - b.y, a.z - b.z⟩

def smul (a : Vec3) (s : ℚ) : Vec3 := ⟨a.x * s, a.y * s, a.z * s⟩

/-- glam Vec3 lerp: self + ((rhs - self) * s). -/
def lerp (a b : Vec3) (s : ℚ) : Vec3 := a.add ((b.sub a).smul s)

def zero : Vec3 := ⟨0, 0, 0⟩

end Vec3

/-- A 4-component vector of exact rationals (glam Vec4 with f32 components). -/
structure Vec4 where
  x : ℚ
  y : ℚ
  z : ℚ
  w : ℚ
deriving DecidableEq

namespace Vec4

def add (a b : Vec4) : Vec4 := ⟨a.x + b.x, a.y + b.y, a.z + b.z, a.w + b.w⟩

def smul (a : Vec4) (s : ℚ) : Vec4 := ⟨a.x * s, a.y * s, a.z * s, a.w * s⟩

end Vec4

/-- A quaternion with exact rational components (glam Quat, stored x y z w). -/
structure Quat where
  x : ℚ
  y : ℚ
  z : ℚ
  w : ℚ
deriving DecidableEq

namespace Quat

/-- glam Quat::from_xyzw / Quat::from_array([x, y, z, w]). -/
def from_array (a : ℚ × ℚ × ℚ × ℚ) : Quat := ⟨a.1, a.2.1, a.2.2.1, a.2.2.2⟩

/-- glam Quat::dot, the 4-component inner product. -/
def dot (a b : Quat) : ℚ := a.x * b.x + a.y * b.y + a.z * b.z + a.w * b.w

/-- glam unary negation on Quat, componentwise. -/
def neg (a : Quat) : Quat := ⟨-a.x, -a.y, -a.z, -a.w⟩

def identity : Quat := ⟨0, 0, 0, 1⟩

end Quat

/-- A 4x4 matrix stored as four column vectors, exactly like glam Mat4
(x_axis, y_axis, z_axis, w_axis). -/
structure Mat4 where
  xAxis : Vec4
  yAxis : Vec4
  zAxis : Vec4
  wAxis : Vec4
deriving DecidableEq

namespace Mat4

def identity : Mat4 :=
  ⟨⟨1, 0, 0, 0⟩, ⟨0, 1, 0, 0⟩, ⟨0, 0, 1, 0⟩, ⟨0, 0, 0, 1⟩⟩

/-- glam Mat4 * Vec4: linear combination of the columns. -/
def mulVec4 (m : Mat4) (v : Vec4) : Vec4 :=
  (((m.xAxis.smul v.x).add (m.yAxis.smul v.y)).add (m.zAxis.smul v.z)).add
    (m.wAxis.smul v.w)

/-- glam Mat4 * Mat4: each column of the product is the left matrix applied to
the corresponding column of the right matrix. -/
def mul (a b : Mat4) : Mat4 :=
  ⟨a.mulVec4 b.xAxis, a.mulVec4 b.yAxis, a.mulVec4 b.zAxis, a.mulVec4 b.wAxis⟩

instance : Mul Mat4 := ⟨Mat4.mul⟩

/-- glam Mat4::from_translation. -/
def from_translation (t : Vec3) : Mat4 :=
  ⟨⟨1, 0, 0, 0⟩, ⟨0, 1, 0, 0⟩, ⟨0, 0, 1, 0⟩, ⟨t.x, t.y, t.z, 1⟩⟩

/-- glam Mat4::from_scale. -/
def from_scale (s : Vec3) : Mat4 :=
  ⟨⟨s.x, 0, 0, 0⟩, ⟨0, s.y, 0, 0⟩, ⟨0, 0, s.z, 0⟩, ⟨0, 0, 0, 1⟩⟩

/-- glam Mat4::from_quat, the standard rotation matrix of a unit quaternion
(polynomial in the components, transcribed from glam). -/
def from_quat (q : Quat) : Mat4 :=
  let x2 := q.x + q.x
  let y2 := q.y + q.y
  let z2 := q.z + q.z
  let xx := q.x * x2
  let xy := q.x * y2
  let xz := q.x * z2
  let yy := q.y * y2
  let yz := q.y * z2
  let zz := q.z * z2
  let wx := q.w * x2
  let wy := q.w * y2
  let wz := q.w * z2
  ⟨⟨1 - (yy + zz), xy + wz, xz - wy, 0⟩,
   ⟨xy - wz, 1 - (xx + zz), yz + wx, 0⟩,
   ⟨xz + wy, yz - wx, 1 - (xx + yy), 0⟩,
   ⟨0, 0, 0, 1⟩⟩

end Mat4

/-- Transform from src/src/model/transform.rs: the decomposed local transform
of a Node or a Joint. -/
structure Transform where
  translation : Vec3
  rotation : Quat
  scale : Vec3
deriving DecidableEq

namespace Transform

/-- Transform::matrix from src/src/model/transform.rs lines 53-57:
from_translation(t) * from_quat(r) * from_scale(s), in that fixed order. -/
def matrix (t : Transform) : Mat4 :=
  Mat4.from_translation t.translation * Mat4.from_quat t.rotation *
    Mat4.from_scale t.scale

def identity : Transform := ⟨Vec3.zero, Quat.identity, ⟨1, 1, 1⟩⟩

end Transform

/-- Joint from src/src/model/joints.rs.  The repository holds two iterations
of this struct: joints.rs stores translation, rotation, scale plus a cached
combined matrix maintained by recalc_transform, while renderer.rs and gui.rs
access the same three fields through a Transform struct and call
transform.matrix() (the cached matrix and matrix() compute the identical
product T * R * S).  We use the Transform representation and keep the node
back-reference (node_index) that the renderer reads; the debug-only name
string is not modelled. -/
structure Joint where
  parent : Option Nat
  inverse_bind_matrix : Mat4
  transform : Transform
  node_index : Nat
deriving DecidableEq

/-- AnimationTransform from src/src/model/animation.rs: a single decoded
transform override tagged by kind. -/
inductive AnimationTransform where
  | translation (v : Vec3)
  | rotation (q : Quat)
  | scale (v : Vec3)
deriving DecidableEq

/-- AnimationTransforms from src/src/model/animation.rs: the keyframe value
array of one channel, tagged by kind. -/
inductive AnimationTransforms where
  | translations (vs : List Vec3)
  | rotations (qs : List Quat)
  | scales (vs : List Vec3)
deriving DecidableEq

/-- Interpolation from the gltf crate, as matched in animation.rs. -/
inductive Interpolation where
  | linear
  | step
  | cubicSpline
deriving DecidableEq

/-- Channel from src/src/model/animation.rs. -/
structure Channel where
  node : Nat
  keyframe_times : List ℚ
  transforms : AnimationTransforms
  interpolation_type : Interpolation
deriving DecidableEq

/-- Rotations from gltf::animation::util: raw rotation keyframe data in one of
the five glTF accessor encodings.  Integer components are modelled as exact
integers; F32 components as exact rationals. -/
inductive RotationsData where
  | i8 (rs : List (ℤ × ℤ × ℤ × ℤ))
  | u8 (rs : List (ℤ × ℤ × ℤ × ℤ))
  | i16 (rs : List (ℤ × ℤ × ℤ × ℤ))
  | u16 (rs : List (ℤ × ℤ × ℤ × ℤ))
  | f32 (rs : List (ℚ × ℚ × ℚ × ℚ))

/-- Componentwise map over a 4-tuple, modelling `v.map(..)` on a [T; 4]. -/
def quadMap {α β : Type} (f : α → β) (v : α × α × α × α) : β × β × β × β :=
  (f v.1, f v.2.1, f v.2.2.1, f v.2.2.2)

/-- Animation::decode_rotations from src/src/model/animation.rs lines 121-133:
the exact glTF int-to-float formulas per component encoding, followed by
Quat::from_array on each quadruple. -/
def decode_rotations (rotations : RotationsData) : AnimationTransforms :=
  let data : List (ℚ × ℚ × ℚ × ℚ) :=
    match rotations with
    | .i8 r => r.map (quadMap (fun (s : ℤ) => max ((s : ℚ) / 127) (-1)))
    | .u8 r => r.map (quadMap (fun (s : ℤ) => (s : ℚ) / 255))
    | .i16 r => r.map (quadMap (fun (s : ℤ) => max ((s : ℚ) / 32767) (-1)))
    | .u16 r => r.map (quadMap (fun (s : ℤ) => (s : ℚ) / 65535))
    | .f32 r => r
  .rotations (data.map Quat.from_array)

/-- Channel::get_fixed_transform from src/src/model/animation.rs lines
162-178.  The source runs todo!() for step and cubic-spline interpolation
(a panic carrying the shown message); panics are modelled as Except.error.
Out-of-range keyframe indices (a Rust panic never reached by the callers
proved about below) are modelled by a default value. -/
def Channel.get_fixed_transform (ch : Channel) (index : Nat) :
    Except String AnimationTransform :=
  match ch.interpolation_type with
  | .step => .error "not yet implemented: Step interpolation"
  | .cubicSpline => .error "not yet implemented: Cubic spline interpolation"
  | .linear =>
    match ch.transforms with
    | .translations tvs => .ok (.translation (tvs.getD index Vec3.zero))
    | .rotations rotations => .ok (.rotation (rotations.getD index Quat.identity))
    | .scales scales => .ok (.scale (scales.getD index Vec3.zero))

/-- Channel::interpolate_transforms from src/src/model/animation.rs lines
181-220.  qnormalize and qslerp stand for glam Quat::normalize and
Quat::slerp, the two primitives that need irrational arithmetic; everything
else (the mode check, the lerp formula, the dot test and the negation) is
transcribed exactly.  The end index is always start_index + 1. -/
def Channel.interpolate_transforms (qnormalize : Quat → Quat)
    (qslerp : Quat → Quat → ℚ → Quat) (ch : Channel) (start_index : Nat)
    (coeff : ℚ) : Except String AnimationTransform :=
  match ch.interpolation_type with
  | .step => .error "not yet implemented: Step interpolation"
  | .cubicSpline => .error "not yet implemented: Cubic spline interpolation"
  | .linear =>
    match ch.transforms with
    | .translations tvs =>
      let start := tvs.getD start_index Vec3.zero
      let stop := tvs.getD (start_index + 1) Vec3.zero
      .ok (.translation (start.lerp stop coeff))
    | .rotations rotations =>
      let start := qnormalize (rotations.getD start_index Quat.identity)
      let stop := qnormalize (rotations.getD (start_index + 1) Quat.identity)
      let interpolated :=
        if start.dot stop > 0 then qslerp start stop coeff
        else qslerp start.neg stop coeff
      .ok (.rotation (qnormalize interpolated))
    | .scales scales =>
      let start := scales.getD start_index Vec3.zero
      let stop := scales.getD (start_index + 1) Vec3.zero
      .ok (.scale (start.lerp stop coeff))

/-- AnimationControl from src/src/model/animation.rs lines 17-26.  Instants
are modelled as rational wall-clock seconds. -/
inductive AnimationControl where
  | loop (active_animation : Nat) (start_time : ℚ)
  | controllable (active_animation : Nat)
  | static
deriving DecidableEq

/-- Animation from src/src/model/animation.rs lines 31-38. -/
structure Animation where
  channels : List Channel
  current_time : ℚ
  end_time : ℚ
  name : Option String
deriving DecidableEq

/-- Truncation toward zero, the rounding used by Rust integer and float
remainders. -/
def ratTrunc (x : ℚ) : ℤ := if 0 ≤ x then ⌊x⌋ else ⌈x⌉

/-- Rust % on floats (truncated remainder), modelled exactly on rationals. -/
def ratRem (a b : ℚ) : ℚ := a - b * ratTrunc (a / b)

/-- Time update of the Loop arm of Renderer::apply_animation,
src/src/renderer.rs lines 260-263: since_start = now - start_time as seconds,
then since_start %= end_time if since_start > end_time. -/
def loopSinceStart (now start_time end_time : ℚ) : ℚ :=
  let since_start := now - start_time
  if since_start > end_time then ratRem since_start end_time else since_start

/-- Control dispatch of Renderer::apply_animation, src/src/renderer.rs lines
252-270: while looping the active animation's current_time is overwritten
from the wall clock; Controllable leaves it alone; Static returns early
(no active animation).  An out-of-range active index (a Rust panic) is
modelled as none. -/
def applyAnimationControl (ctrl : AnimationControl) (anims : List Animation)
    (now : ℚ) : Option (List Animation × Option Nat) :=
  match ctrl with
  | .loop active_animation start_time =>
    match anims.get? active_animation with
    | none => none
    | some anim =>
      let since_start := loopSinceStart now start_time anim.end_time
      some (anims.set active_animation { anim with current_time := since_start },
        some active_animation)
  | .controllable active_animation => some (anims, some active_animation)
  | .static => some (anims, none)

/-- Keyframe-search loop of Renderer::apply_animation, src/src/renderer.rs
lines 279-300, for one channel, starting at index i: emit the fixed keyframe
i when i is the last index, or when i = 0 and current_time is before the
first keyframe; emit the interpolation between i and i+1 when
times[i] <= current_time < times[i+1]; otherwise advance.  Falling off the
end (only possible for an empty keyframe list) yields none, matching a loop
that never pushes a transform. -/
def resolveChannelAux (qnormalize : Quat → Quat)
    (qslerp : Quat → Quat → ℚ → Quat) (ch : Channel) (current_time : ℚ)
    (i : Nat) : Option (Except String AnimationTransform) :=
  if h : i < ch.keyframe_times.length then
    let start_time := ch.keyframe_times.getD i 0
    if i = ch.keyframe_times.length - 1 ∨ (i = 0 ∧ current_time < start_time) then
      some (ch.get_fixed_transform i)
    else
      let end_time := ch.keyframe_times.getD (i + 1) 0
      if start_time ≤ current_time ∧ end_time > current_time then
        let coeff := (current_time - start_time) / (end_time - start_time)
        some (ch.interpolate_transforms qnormalize qslerp i coeff)
      else
        resolveChannelAux qnormalize qslerp ch current_time (i + 1)
  else none
termination_by ch.keyframe_times.length - i

/-- Per-channel keyframe resolution: the loop of apply_animation started at
index 0. -/
def resolveChannel (qnormalize : Quat → Quat)
    (qslerp : Quat → Quat → ℚ → Quat) (ch : Channel) (current_time : ℚ) :
    Option (Except String AnimationTransform) :=
  resolveChannelAux qnormalize qslerp ch current_time 0

/-- A gltf scene node as consumed by Joints::build_hierarchy: its index in
the gltf document, its decomposed local transform, and its children.  The
Transform::Matrix case of the gltf transform is decomposed to
translation/rotation/scale by glam before reaching Joint::new, so nodes are
modelled by their decomposed transform; the debug-only name is omitted. -/
inductive GNode where
  | mk (index : Nat) (translation : Vec3) (rotation : Quat) (scale : Vec3)
      (children : List GNode)

def GNode.index : GNode → Nat
  | .mk i _ _ _ _ => i

def GNode.children : GNode → List GNode
  | .mk _ _ _ _ c => c

/-- Joints::build_hierarchy from src/src/model/joints.rs lines 46-103:
depth-first walk of the scene forest carrying the current parent joint array
index.  A joint node is appended (parent = carried index, inverse-bind matrix
looked up by the position of the node index in the skin's declared joint
order) and its children are visited with the new joint's array index as
parent; after a root joint (carried parent none) finishes, the function
returns early, skipping the remaining siblings.  A non-joint node is passed
through with the carried parent unchanged.  A failed inverse-bind-matrix
lookup (an index out of bounds panic in Rust) is modelled as none. -/
def build_hierarchy (nodes : List GNode) (joint_indices : List Nat)
    (parent : Option Nat) (joints : List Joint) (inverse_bind_matrices : List Mat4) :
    Option (List Joint) :=
  match nodes with
  | [] => some joints
  | GNode.mk index translation rotation scale children :: rest =>
    if joint_indices.contains index then
      let joints_index := joints.length
      let matrix_index := joint_indices.indexOf index
      match inverse_bind_matrices.get? matrix_index with
      | none => none
      | some ibm =>
        let joints1 := joints ++ [⟨parent, ibm, ⟨translation, rotation, scale⟩, index⟩]
        match build_hierarchy children joint_indices (some joints_index) joints1
            inverse_bind_matrices with
        | none => none
        | some joints2 =>
          if parent.isNone then some joints2
          else build_hierarchy rest joint_indices parent joints2 inverse_bind_matrices
    else
      match build_hierarchy children joint_indices parent joints
          inverse_bind_matrices with
      | none => none
      | some joints2 =>
        build_hierarchy rest joint_indices parent joints2 inverse_bind_matrices
termination_by sizeOf nodes
decreasing_by all_goals (simp_wf; try omega)

/-- Joints::from_gltf from src/src/model/joints.rs lines 12-39.  The skin is
given by its declared joint node indices and the optional decoded
inverse-bind matrices; the scene by its root nodes.  Note the source sizes
the identity-default vector by joints.len() at a point where the joints
vector was just created empty, so the none arm produces an empty default
list. -/
def from_gltf (skin_joint_indices : List Nat) (read_ibms : Option (List Mat4))
    (scene_nodes : List GNode) : Option (List Joint) :=
  let joint_indices := skin_joint_indices
  let joints : List Joint := []
  let inverse_bind_matrices : List Mat4 :=
    match read_ibms with
    | some matrices => matrices
    | none => List.replicate joints.length Mat4.identity
  build_hierarchy scene_nodes joint_indices none joints inverse_bind_matrices

/-- World-transform cascade of Renderer::recalc_skin_matrices,
src/src/renderer.rs lines 206-215: world_transforms starts as a vector of
identities of the joint count, and slot i is overwritten in array order with
world[parent] * local (parent present) or outer_transform * local (root).
Reading a slot that was not yet written yields the initial identity, as in
the source; a parent index beyond the vector (a Rust panic, excluded by the
hierarchy invariant) is also modelled by the identity default. -/
def recalcWorldLoop (joints : List Joint) (outer_transform : Mat4)
    (world : List Mat4) (i : Nat) : List Mat4 :=
  if h : i < joints.length then
    let j := joints.get ⟨i, h⟩
    let t :=
      match j.parent with
      | some parent_index => (world.getD parent_index Mat4.identity) * j.transform.matrix
      | none => outer_transform * j.transform.matrix
    recalcWorldLoop joints outer_transform (world.set i t) (i + 1)
  else world
termination_by joints.length - i

def world_transforms (joints : List Joint) (outer_transform : Mat4) : List Mat4 :=
  recalcWorldLoop joints outer_transform
    (List.replicate joints.length Mat4.identity) 0

/-- Skin-matrix emission of Renderer::recalc_skin_matrices,
src/src/renderer.rs lines 221-227: for each joint in array order, push
world[i] * inverse_bind_matrix.  The animation-override pass
(apply_joint_transforms) runs before this and only rewrites the joints'
local transforms, so the joint array here is the post-override one. -/
def skin_matrices (joints : List Joint) (outer_transform : Mat4) : List Mat4 :=
  let worlds := world_transforms joints outer_transform
  (worlds.zip joints).map fun wj => wj.1 * wj.2.inverse_bind_matrix

/-- Proof scaffolding for the cascade: the contents of the world_transforms
vector of recalc_skin_matrices after the loop has processed the first k
indices (one recursion step per loop iteration, mirroring recalcWorldLoop). -/
def worldState (joints : List Joint) (outer_transform : Mat4) : Nat → List Mat4
  | 0 => List.replicate joints.length Mat4.identity
  | k + 1 =>
    if h : k < joints.length then
      (worldState joints outer_transform k).set k
        (match (joints.get ⟨k, h⟩).parent with
         | some parent_index =>
             ((worldState joints outer_transform k).getD parent_index Mat4.identity) *
               (joints.get ⟨k, h⟩).transform.matrix
         | none => outer_transform * (joints.get ⟨k, h⟩).transform.matrix)
    else worldState joints outer_transform k

/-- A renderable scene node as consumed by Renderer::render_node: local
transform matrix, optional joint hierarchy, children.  Mesh data and the
draw calls are irrelevant to the skin matrices and omitted. -/
inductive RNode where
  | mk (transform : Mat4) (joints : Option (List Joint)) (children : List RNode)

def RNode.transform : RNode → Mat4
  | .mk t _ _ => t

/-- Renderer::render_node from src/src/renderer.rs lines 126-150, projected
to the skin-matrix uploads it performs: next_level_transform =
outer_transform * node.transform is computed first, the node's joint
hierarchy (when present) is cascaded with next_level_transform as the outer
transform, and the children are visited with next_level_transform.  The
returned list collects the skin-matrix arrays in traversal order. -/
def render_node (node : RNode) (outer_transform : Mat4) : List (List Mat4) :=
  match node with
  | .mk transform joints children =>
    let next_level_transform := outer_transform * transform
    let here :=
      match joints with
      | some js => [skin_matrices js next_level_transform]
      | none => []
    here ++ (children.attach.map
      (fun c => render_node c.1 next_level_transform)).flatten
termination_by sizeOf node
decreasing_by
  simp_wf
  have := List.sizeOf_lt_of_mem c.2
  omega

/-- Gui::show_joint_transforms from src/src/gui.rs lines 102-147: the debug
view exposes the joint's translation and scale as drag widgets and its
rotation through an axis-angle round trip, then writes all three back into
the joint's transform.  The drag results and the recomputed quaternion (the
axis-angle round trip uses trigonometry) are taken as inputs.  The function
receives only the joint and the Ui: it neither reads nor writes the
animation control state. -/
def show_joint_transforms (joint : Joint) (dragged_translation : Vec3)
    (dragged_scale : Vec3) (recomputed_rotation : Quat) : Joint :=
  { joint with
    transform :=
      { translation := dragged_translation
        scale := dragged_scale
        rotation := recomputed_rotation } }

/-- The per-model animation-relevant state seen by the joints window:
the skinned node's joint array and the model's animation control. -/
structure ModelAnimState where
  joints : List Joint
  animation_control : AnimationControl
deriving DecidableEq

/-- Gui::gui_joints_window from src/src/gui.rs lines 77-100: iterate the
joint array and run show_joint_transforms on each joint, with the user's
edit for each index supplied by the edits function.  The animation control
is carried through untouched, as in the source, which gives the joints
window no access to it. -/
def gui_joints_window (state : ModelAnimState)
    (edits : Nat → Vec3 × Vec3 × Quat) : ModelAnimState :=
  { state with
    joints := state.joints.enum.map fun p =>
      show_joint_transforms p.2 (edits p.1).1 (edits p.1).2.1 (edits p.1).2.2 }

/-! Theorems about the embedded program. -/

theorem Mat4.mul_def (a b : Mat4) : a * b = Mat4.mul a b := rfl

/-- C7: rotation keyframe decoding maps every encoded integer component by the
exact glTF formulas — signed 8-bit max(c/127, -1); unsigned 8-bit c/255;
signed 16-bit max(c/32767, -1); unsigned 16-bit c/65535; 32-bit floats pass
through unchanged — and in particular an unsigned 16-bit component 65535
decodes to 1 and 0 decodes to 0. -/
theorem c7_decode_rotations_gltf_formulas :
    (∀ c0 c1 c2 c3 : ℤ, decode_rotations (.i8 [(c0, c1, c2, c3)]) =
      .rotations [⟨max ((c0 : ℚ) / 127) (-1), max ((c1 : ℚ) / 127) (-1),
        max ((c2 : ℚ) / 127) (-1), max ((c3 : ℚ) / 127) (-1)⟩]) ∧
    (∀ c0 c1 c2 c3 : ℤ, decode_rotations (.u8 [(c0, c1, c2, c3)]) =
      .rotations [⟨(c0 : ℚ) / 255, (c1 : ℚ) / 255, (c2 : ℚ) / 255, (c3 : ℚ) / 255⟩]) ∧
    (∀ c0 c1 c2 c3 : ℤ, decode_rotations (.i16 [(c0, c1, c2, c3)]) =
      .rotations [⟨max ((c0 : ℚ) / 32767) (-1), max ((c1 : ℚ) / 32767) (-1),
        max ((c2 : ℚ) / 32767) (-1), max ((c3 : ℚ) / 32767) (-1)⟩]) ∧
    (∀ c0 c1 c2 c3 : ℤ, decode_rotations (.u16 [(c0, c1, c2, c3)]) =
      .rotations [⟨(c0 : ℚ) / 65535, (c1 : ℚ) / 65535, (c2 : ℚ) / 65535,
        (c3 : ℚ) / 65535⟩]) ∧
    (∀ qs, decode_rotations (.f32 qs) = .rotations (qs.map Quat.from_array)) ∧
    decode_rotations (.u16 [(65535, 0, 0, 65535)]) = .rotations [⟨1, 0, 0, 1⟩] :=
  ⟨fun _ _ _ _ => rfl, fun _ _ _ _ => rfl, fun _ _ _ _ => rfl, fun _ _ _ _ => rfl,
    fun _ => rfl, by norm_num [decode_rotations, quadMap, Quat.from_array]⟩

/-- C9: for a channel whose interpolation mode is step or cubic spline, both
the fixed-keyframe path and the interpolating path of keyframe resolution
produce an unsupported-feature error (the modelled todo! panic), the two
errors carry distinguishable messages, and no transform value is returned. -/
theorem c9_unsupported_interpolation_is_error (ch : Channel) (i : Nat)
    (coeff : ℚ) (qnormalize : Quat → Quat) (qslerp : Quat → Quat → ℚ → Quat) :
    (ch.interpolation_type = .step →
      ch.get_fixed_transform i = .error "not yet implemented: Step interpolation" ∧
      ch.interpolate_transforms qnormalize qslerp i coeff =
        .error "not yet implemented: Step interpolation") ∧
    (ch.interpolation_type = .cubicSpline →
      ch.get_fixed_transform i =
        .error "not yet implemented: Cubic spline interpolation" ∧
      ch.interpolate_transforms qnormalize qslerp i coeff =
        .error "not yet implemented: Cubic spline interpolation") ∧
    "not yet implemented: Step interpolation" ≠
      "not yet implemented: Cubic spline interpolation" := by
  refine ⟨fun h => ?_, fun h => ?_, by decide⟩ <;>
    simp [Channel.get_fixed_transform, Channel.interpolate_transforms, h]

/-- Witness for C9 at a concrete step channel and a concrete cubic-spline
channel. -/
theorem c9_witness :
    (Channel.mk 0 [0] (.translations [Vec3.zero]) .step).get_fixed_transform 0 =
      .error "not yet implemented: Step interpolation" ∧
    (Channel.mk 0 [0] (.translations [Vec3.zero])
        .cubicSpline).interpolate_transforms id (fun a _ _ => a) 0 0 =
      .error "not yet implemented: Cubic spline interpolation" :=
  ⟨((c9_unsupported_interpolation_is_error
      (Channel.mk 0 [0] (.translations [Vec3.zero]) .step) 0 0 id
      (fun a _ _ => a)).1 rfl).1,
    ((c9_unsupported_interpolation_is_error
      (Channel.mk 0 [0] (.translations [Vec3.zero]) .cubicSpline) 0 0 id
      (fun a _ _ => a)).2.1 rfl).2⟩

/-- Counterexample for C5: the source negates the start quaternion whenever
the dot product is not positive, so at dot exactly 0 the negation still
happens even though the claim says it happens exactly when dot < 0.  With
normalize instantiated as the identity (both endpoints are unit) and slerp
instantiated as a function returning its first argument, the result exposes
the negated start ⟨-1,0,0,0⟩ where the claim predicts the un-negated start
⟨1,0,0,0⟩. -/
theorem c5_counterexample :
    Quat.dot ⟨1, 0, 0, 0⟩ ⟨0, 1, 0, 0⟩ = 0 ∧
    Channel.interpolate_transforms id (fun a _ _ => a)
        ⟨0, [0, 1], .rotations [⟨1, 0, 0, 0⟩, ⟨0, 1, 0, 0⟩], .linear⟩ 0 (1/2) =
      .ok (.rotation ⟨-1, 0, 0, 0⟩) ∧
    (Except.ok (AnimationTransform.rotation ⟨-1, 0, 0, 0⟩) :
        Except String AnimationTransform) ≠
      .ok (.rotation ⟨1, 0, 0, 0⟩) := by
  refine ⟨by norm_num [Quat.dot], ?_, by norm_num⟩
  norm_num [Channel.interpolate_transforms, Quat.dot, Quat.neg]

/-- C5 (amended): rotation interpolation normalizes both endpoints, negates
the (normalized) start exactly when the dot product with the end is NOT
positive (dot <= 0 — the source tests dot > 0), slerps, and renormalizes;
in particular for unit endpoints with dot < 0 the result at any coeff is
normalize(slerp(-q0, q1, coeff)). -/
theorem c5_shortest_path_negation (qnormalize : Quat → Quat)
    (qslerp : Quat → Quat → ℚ → Quat) (ch : Channel) (i : Nat) (coeff : ℚ)
    (rots : List Quat) (q0 q1 : Quat)
    (hlin : ch.interpolation_type = .linear) (htr : ch.transforms = .rotations rots)
    (h0 : rots.getD i Quat.identity = q0) (h1 : rots.getD (i + 1) Quat.identity = q1)
    (hn0 : qnormalize q0 = q0) (hn1 : qnormalize q1 = q1) :
    (Quat.dot q0 q1 ≤ 0 →
      ch.interpolate_transforms qnormalize qslerp i coeff =
        .ok (.rotation (qnormalize (qslerp q0.neg q1 coeff)))) ∧
    (0 < Quat.dot q0 q1 →
      ch.interpolate_transforms qnormalize qslerp i coeff =
        .ok (.rotation (qnormalize (qslerp q0 q1 coeff)))) := by
  constructor <;> intro hd <;>
    simp only [Channel.interpolate_transforms, hlin, htr, h0, h1, hn0, hn1]
  · rw [if_neg (not_lt.mpr hd)]
  · rw [if_pos hd]

/-- Witness for C5 (amended) at unit endpoints with dot = -1 < 0, normalize
instantiated as the identity and slerp as the function returning its first
argument: the emitted rotation is the negated start. -/
theorem c5_witness :
    Quat.dot ⟨0, 0, 0, 1⟩ ⟨0, 0, 0, -1⟩ ≤ 0 ∧
    Channel.interpolate_transforms id (fun a _ _ => a)
        ⟨0, [0, 1], .rotations [⟨0, 0, 0, 1⟩, ⟨0, 0, 0, -1⟩], .linear⟩ 0 (1/2) =
      .ok (.rotation ⟨0, 0, 0, -1⟩) := by
  refine ⟨by norm_num [Quat.dot], ?_⟩
  have h := (c5_shortest_path_negation id (fun a _ _ => a)
    ⟨0, [0, 1], .rotations [⟨0, 0, 0, 1⟩, ⟨0, 0, 0, -1⟩], .linear⟩ 0 (1/2)
    [⟨0, 0, 0, 1⟩, ⟨0, 0, 0, -1⟩] ⟨0, 0, 0, 1⟩ ⟨0, 0, 0, -1⟩
    rfl rfl rfl rfl rfl rfl).1 (by norm_num [Quat.dot])
  simpa [Quat.neg] using h

/-- C8: on a frame tick in the Looping state, the active animation's
current_time is overwritten with the wall-clock seconds elapsed since
start_time; the value is the elapsed time itself when it does not exceed
end_time, and otherwise it is wrapped by the remainder modulo end_time,
landing in [0, end_time). -/
theorem c8_looping_recomputes_time (anims : List Animation)
    (active_animation : Nat) (start_time now : ℚ) (anim : Animation)
    (hget : anims.get? active_animation = some anim)
    (hend : 0 < anim.end_time) (hsince : 0 ≤ now - start_time) :
    applyAnimationControl (.loop active_animation start_time) anims now =
      some (anims.set active_animation
        { anim with current_time := loopSinceStart now start_time anim.end_time },
        some active_animation) ∧
    (now - start_time ≤ anim.end_time →
      loopSinceStart now start_time anim.end_time = now - start_time) ∧
    (anim.end_time < now - start_time →
      loopSinceStart now start_time anim.end_time =
        (now - start_time) -
          anim.end_time * ⌊(now - start_time) / anim.end_time⌋ ∧
      0 ≤ loopSinceStart now start_time anim.end_time ∧
      loopSinceStart now start_time anim.end_time < anim.end_time) := by
  have hget2 : anims[active_animation]? = some anim := by
    simpa [List.get?_eq_getElem?] using hget
  refine ⟨by simp [applyAnimationControl, hget2], fun hle => ?_, fun hlt => ?_⟩
  · simp only [loopSinceStart]
    rw [if_neg (not_lt.mpr hle)]
  · have hq : (0 : ℚ) ≤ (now - start_time) / anim.end_time :=
      div_nonneg hsince (le_of_lt hend)
    have hval : loopSinceStart now start_time anim.end_time =
        (now - start_time) -
          anim.end_time * ⌊(now - start_time) / anim.end_time⌋ := by
      simp only [loopSinceStart, ratRem, ratTrunc]
      rw [if_pos hlt, if_pos hq]
    refine ⟨hval, ?_, ?_⟩
    · rw [hval, mul_comm]
      exact Int.sub_floor_div_mul_nonneg (now - start_time) hend
    · rw [hval, mul_comm]
      exact Int.sub_floor_div_mul_lt (now - start_time) hend

/-- Witness for C8: end_time = 2 and start_time = now - 5 resolve
current_time to exactly 1 (5 mod 2). -/
theorem c8_witness :
    applyAnimationControl (.loop 0 0) [⟨[], 1/10, 2, none⟩] 5 =
      some ([⟨[], loopSinceStart 5 0 2, 2, none⟩], some 0) ∧
    loopSinceStart 5 0 2 = 1 := by
  have h := c8_looping_recomputes_time [⟨[], 1/10, 2, none⟩] 0 0 5
    ⟨[], 1/10, 2, none⟩ rfl (by norm_num) (by norm_num)
  have hfl : ⌊(5 : ℚ) / 2⌋ = 2 := by
    rw [Int.floor_eq_iff]
    norm_num
  have hv : loopSinceStart 5 0 2 = 1 := by
    norm_num [loopSinceStart, ratRem, ratTrunc, hfl]
  exact ⟨by simpa using h.1, hv⟩

/-- Counterexample for C10: running the joints-window edit path while the
playback state is Looping mutates the joint's authored transform and leaves
the state Looping — it does not force Static first, contradicting the
claim that every such write path forces Static before writing. -/
theorem c10_counterexample :
    (gui_joints_window
        ⟨[⟨none, Mat4.identity, Transform.identity, 0⟩], .loop 0 0⟩
        (fun _ => (⟨1, 0, 0⟩, ⟨1, 1, 1⟩, Quat.identity))).animation_control =
      .loop 0 0 ∧
    (AnimationControl.loop 0 0 ≠ .static) ∧
    (gui_joints_window
        ⟨[⟨none, Mat4.identity, Transform.identity, 0⟩], .loop 0 0⟩
        (fun _ => (⟨1, 0, 0⟩, ⟨1, 1, 1⟩, Quat.identity))).joints =
      [⟨none, Mat4.identity, ⟨⟨1, 0, 0⟩, Quat.identity, ⟨1, 1, 1⟩⟩, 0⟩] ∧
    (Transform.mk ⟨1, 0, 0⟩ Quat.identity ⟨1, 1, 1⟩ ≠ Transform.identity) := by
  refine ⟨rfl, by simp, ?_, by simp [Transform.identity, Vec3.zero]⟩
  simp [gui_joints_window, show_joint_transforms]

/-- C10 (amended): the joint-edit write path of the joints window overwrites
each joint's translation, scale and rotation with the user's edit and leaves
the playback state exactly as it was — it never forces
AnimationControl::Static, so a joint can be edited while the state is
Looping or Controllable. -/
theorem c10_edit_path_leaves_playback_state (state : ModelAnimState)
    (edits : Nat → Vec3 × Vec3 × Quat) :
    (gui_joints_window state edits).animation_control = state.animation_control ∧
    ∀ i j, state.joints.get? i = some j →
      (gui_joints_window state edits).joints.get? i =
        some ⟨j.parent, j.inverse_bind_matrix,
          ⟨(edits i).1, (edits i).2.2, (edits i).2.1⟩, j.node_index⟩ := by
  refine ⟨rfl, fun i j hj => ?_⟩
  have hj2 : state.joints[i]? = some j := by
    simpa [List.get?_eq_getElem?] using hj
  simp [gui_joints_window, List.getElem?_enum, hj2, show_joint_transforms]

/-- Witness for C10 (amended): a concrete edit of a one-joint model in the
Looping state. -/
theorem c10_witness :
    (gui_joints_window
        ⟨[⟨none, Mat4.identity, Transform.identity, 7⟩], .loop 0 0⟩
        (fun _ => (⟨2, 0, 0⟩, ⟨1, 1, 1⟩, Quat.identity))).animation_control =
      .loop 0 0 ∧
    (gui_joints_window
        ⟨[⟨none, Mat4.identity, Transform.identity, 7⟩], .loop 0 0⟩
        (fun _ => (⟨2, 0, 0⟩, ⟨1, 1, 1⟩, Quat.identity))).joints.get? 0 =
      some ⟨none, Mat4.identity, ⟨⟨2, 0, 0⟩, Quat.identity, ⟨1, 1, 1⟩⟩, 7⟩ := by
  have h := c10_edit_path_leaves_playback_state
    ⟨[⟨none, Mat4.identity, Transform.identity, 7⟩], .loop 0 0⟩
    (fun _ => (⟨2, 0, 0⟩, ⟨1, 1, 1⟩, Quat.identity))
  exact ⟨h.1, h.2 0 ⟨none, Mat4.identity, Transform.identity, 7⟩ rfl⟩

/-- C1 (code bug): render_node computes next_level_transform =
outer_transform * node.transform BEFORE handing it to the skin-matrix
computation, so the skinned node's own transform does contribute to the
skinning matrices.  For a skinned node whose own transform is a translation
by (1,0,0), with a single root joint whose local transform and inverse-bind
matrix are the identity and outer transform identity, the emitted skinning
matrix is the translation by (1,0,0); the glTF rule stated by the claim
demands the identity, which is what the cascade alone (second conjunct)
produces from the ancestors-only transform. -/
theorem c1_skinned_node_transform_not_ignored :
    render_node (RNode.mk (Mat4.from_translation ⟨1, 0, 0⟩)
        (some [⟨none, Mat4.identity, Transform.identity, 0⟩]) []) Mat4.identity =
      [[Mat4.from_translation ⟨1, 0, 0⟩]] ∧
    skin_matrices [⟨none, Mat4.identity, Transform.identity, 0⟩] Mat4.identity =
      [Mat4.identity] ∧
    Mat4.from_translation ⟨1, 0, 0⟩ ≠ Mat4.identity := by
  refine ⟨?_, ?_, by norm_num [Mat4.from_translation, Mat4.identity]⟩ <;>
    simp [render_node, skin_matrices, world_transforms, recalcWorldLoop,
      Transform.matrix, Transform.identity, Mat4.mul_def, Mat4.mul, Mat4.mulVec4,
      Mat4.identity, Mat4.from_translation, Mat4.from_quat, Mat4.from_scale,
      Vec4.add, Vec4.smul, Vec3.zero, Quat.identity]

/-- C6 (code bug): when no inverse-bind matrices are supplied, from_gltf
sizes the identity-default vector by the length of the still-empty joints
vector, so the defaults list is empty and the first joint's inverse-bind
lookup goes out of bounds (a panic, modelled as none) instead of the claimed
successful construction with identity inverse-bind matrices.  The second
conjunct shows the same one-joint scene constructs fine when an explicit
identity matrix list is supplied, isolating the defaulting path as the
failure. -/
theorem c6_missing_ibms_panic :
    from_gltf [0] none [GNode.mk 0 Vec3.zero Quat.identity ⟨1, 1, 1⟩ []] = none ∧
    from_gltf [0] (some [Mat4.identity])
        [GNode.mk 0 Vec3.zero Quat.identity ⟨1, 1, 1⟩ []] =
      some [⟨none, Mat4.identity, ⟨Vec3.zero, Quat.identity, ⟨1, 1, 1⟩⟩, 0⟩] := by
  constructor <;> simp [from_gltf, build_hierarchy]

/-- Invariant of the depth-first traversal: if the carried parent index (when
present) points below the current joint count and every joint already
emitted has its parent strictly below its own slot, then the same holds of
every joint in the result, and the traversal only appends. -/
theorem build_hierarchy_parent_lt (nodes : List GNode) (joint_indices : List Nat)
    (parent : Option Nat) (joints : List Joint) (inverse_bind_matrices : List Mat4) :
    ∀ js, build_hierarchy nodes joint_indices parent joints inverse_bind_matrices =
        some js →
      (∀ p, parent = some p → p < joints.length) →
      (∀ i j p, joints.get? i = some j → j.parent = some p → p < i) →
      joints.length ≤ js.length ∧
        ∀ i j p, js.get? i = some j → j.parent = some p → p < i := by
  induction nodes, joint_indices, parent, joints, inverse_bind_matrices
    using build_hierarchy.induct with
  | case1 ji parent joints ibms =>
    intro js h hpar hinv
    rw [build_hierarchy] at h
    cases h
    exact ⟨le_refl _, hinv⟩
  | case2 ji parent joints ibms index tr rot sc children rest hc mi hnone =>
    intro js h hpar hinv
    rw [build_hierarchy] at h
    simp only [hc, if_true, hnone] at h
    cases h
  | case3 ji parent joints ibms index tr rot sc children rest hc jidx mi ibm hibm
      j1 hrec ih =>
    intro js h hpar hinv
    rw [build_hierarchy] at h
    simp only [hc, if_true, hibm, hrec] at h
    cases h
  | case4 ji parent joints ibms index tr rot sc children rest hc jidx mi ibm hibm
      j1 joints2 hrec hpn ih =>
    intro js h hpar hinv
    rw [build_hierarchy] at h
    simp only [hc, if_true, hibm, hrec, hpn, if_true] at h
    cases h
    have hlt1 : joints.length <
        (joints ++ [Joint.mk parent ibm (Transform.mk tr rot sc) index]).length := by
      simp only [List.length_append, List.length_singleton]
      omega
    have hinv1 : ∀ i j p,
        (joints ++ [Joint.mk parent ibm (Transform.mk tr rot sc) index]).get? i =
          some j → j.parent = some p → p < i := by
      intro i j p hget hp
      rcases lt_trichotomy i joints.length with hi | hi | hi
      · rw [List.get?_append hi] at hget
        exact hinv i j p hget hp
      · subst hi
        rw [List.get?_concat_length] at hget
        cases hget
        exact hpar p hp
      · rw [List.get?_eq_none.mpr
          (by simp only [List.length_append, List.length_singleton]; omega)] at hget
        exact Option.noConfusion hget
    have hres := ih joints2 hrec
      (fun p hp => by cases hp; exact hlt1)
      hinv1
    exact ⟨le_trans (le_of_lt hlt1) hres.1, hres.2⟩
  | case5 ji parent joints ibms index tr rot sc children rest hc jidx mi ibm hibm
      j1 joints2 hrec hpn ihc ihr =>
    intro js h hpar hinv
    rw [build_hierarchy] at h
    simp only [hc, if_true, hibm, hrec, hpn, if_false] at h
    have hlt1 : joints.length <
        (joints ++ [Joint.mk parent ibm (Transform.mk tr rot sc) index]).length := by
      simp only [List.length_append, List.length_singleton]
      omega
    have hinv1 : ∀ i j p,
        (joints ++ [Joint.mk parent ibm (Transform.mk tr rot sc) index]).get? i =
          some j → j.parent = some p → p < i := by
      intro i j p hget hp
      rcases lt_trichotomy i joints.length with hi | hi | hi
      · rw [List.get?_append hi] at hget
        exact hinv i j p hget hp
      · subst hi
        rw [List.get?_concat_length] at hget
        cases hget
        exact hpar p hp
      · rw [List.get?_eq_none.mpr
          (by simp only [List.length_append, List.length_singleton]; omega)] at hget
        exact Option.noConfusion hget
    have h2 := ihc joints2 hrec (fun p hp => by cases hp; exact hlt1) hinv1
    have h3 := ihr js h
      (fun p hp => lt_of_lt_of_le (lt_of_lt_of_le (hpar p hp) (le_of_lt hlt1)) h2.1)
      h2.2
    exact ⟨le_trans (le_trans (le_of_lt hlt1) h2.1) h3.1, h3.2⟩
  | case6 ji parent joints ibms index tr rot sc children rest hc hrec ih =>
    intro js h hpar hinv
    rw [build_hierarchy] at h
    simp only [hc, if_false, hrec] at h
    cases h
  | case7 ji parent joints ibms index tr rot sc children rest hc joints2 hrec
      ihc ihr =>
    intro js h hpar hinv
    rw [build_hierarchy] at h
    simp only [hc, if_false, hrec] at h
    have h2 := ihc joints2 hrec hpar hinv
    have h3 := ihr js h
      (fun p hp => lt_of_lt_of_le (hpar p hp) h2.1)
      h2.2
    exact ⟨le_trans h2.1 h3.1, h3.2⟩

/-- C2: in every joint hierarchy produced by from_gltf, a joint's parent
index is strictly smaller than the joint's own array index — parents are
emitted before children by the depth-first pre-order traversal restricted to
joint nodes. -/
theorem c2_parent_before_child (skin_joint_indices : List Nat)
    (read_ibms : Option (List Mat4)) (scene_nodes : List GNode)
    (js : List Joint)
    (h : from_gltf skin_joint_indices read_ibms scene_nodes = some js) :
    ∀ i j p, js.get? i = some j → j.parent = some p → p < i := by
  simp only [from_gltf] at h
  exact (build_hierarchy_parent_lt scene_nodes skin_joint_indices none [] _
    js h (fun p hp => by cases hp) (fun i j p hg => by cases hg)).2

/-- Witness for C2: a two-joint scene (root joint node 0 with child joint
node 1) constructs the hierarchy [root, child-of-0] and every parent index
is below its child's slot. -/
theorem c2_witness :
    ∃ js, from_gltf [0, 1] (some [Mat4.identity, Mat4.identity])
        [GNode.mk 0 Vec3.zero Quat.identity ⟨1, 1, 1⟩
          [GNode.mk 1 Vec3.zero Quat.identity ⟨1, 1, 1⟩ []]] = some js ∧
      ∀ i j p, js.get? i = some j → j.parent = some p → p < i := by
  have hev : from_gltf [0, 1] (some [Mat4.identity, Mat4.identity])
      [GNode.mk 0 Vec3.zero Quat.identity ⟨1, 1, 1⟩
        [GNode.mk 1 Vec3.zero Quat.identity ⟨1, 1, 1⟩ []]] =
      some [⟨none, Mat4.identity, ⟨Vec3.zero, Quat.identity, ⟨1, 1, 1⟩⟩, 0⟩,
        ⟨some 0, Mat4.identity, ⟨Vec3.zero, Quat.identity, ⟨1, 1, 1⟩⟩, 1⟩] := by
    simp [from_gltf, build_hierarchy]
  exact ⟨_, hev, c2_parent_before_child _ _ _ _ hev⟩

theorem worldState_length (joints : List Joint) (outer_transform : Mat4)
    (k : Nat) :
    (worldState joints outer_transform k).length = joints.length := by
  induction k with
  | zero => simp [worldState]
  | succ k ih =>
    rw [worldState]
    split
    · simp [List.length_set, ih]
    · exact ih

theorem recalcWorldLoop_step (joints : List Joint) (outer_transform : Mat4)
    (k : Nat) (hk : k < joints.length) :
    recalcWorldLoop joints outer_transform (worldState joints outer_transform k) k =
      recalcWorldLoop joints outer_transform
        (worldState joints outer_transform (k + 1)) (k + 1) := by
  conv_lhs => rw [recalcWorldLoop]
  simp only [dif_pos hk]
  congr 1
  rw [worldState]
  simp only [dif_pos hk]

theorem world_transforms_eq_worldState (joints : List Joint)
    (outer_transform : Mat4) :
    world_transforms joints outer_transform =
      worldState joints outer_transform joints.length := by
  have key : ∀ d k, k ≤ joints.length → joints.length - k = d →
      recalcWorldLoop joints outer_transform (worldState joints outer_transform k) k =
        worldState joints outer_transform joints.length := by
    intro d
    induction d with
    | zero =>
      intro k hk hd
      have : k = joints.length := by omega
      subst this
      rw [recalcWorldLoop, dif_neg (lt_irrefl _)]
    | succ d ih =>
      intro k hk hd
      have hklt : k < joints.length := by omega
      rw [recalcWorldLoop_step joints outer_transform k hklt]
      exact ih (k + 1) (by omega) (by omega)
  have h0 := key joints.length 0 (Nat.zero_le _) (by omega)
  rw [world_transforms]
  exact h0

theorem worldState_stable (joints : List Joint) (outer_transform : Mat4) :
    ∀ m p, p < m →
      (worldState joints outer_transform m).get? p =
        (worldState joints outer_transform (p + 1)).get? p := by
  intro m
  induction m with
  | zero => intro p hp; exact absurd hp (Nat.not_lt_zero p)
  | succ m ih =>
    intro p hp
    rcases Nat.lt_or_ge p m with h1 | h1
    · rw [worldState]
      split
      · rw [List.get?_set_ne _ _ (by omega)]
        exact ih p h1
      · exact ih p h1
    · have : p = m := by omega
      subst this
      rfl

theorem worldState_value (joints : List Joint) (outer_transform : Mat4)
    (k : Nat) (hk : k < joints.length) :
    (worldState joints outer_transform (k + 1)).get? k = some
      (match (joints.get ⟨k, hk⟩).parent with
       | some parent_index =>
           ((worldState joints outer_transform k).getD parent_index Mat4.identity) *
             (joints.get ⟨k, hk⟩).transform.matrix
       | none => outer_transform * (joints.get ⟨k, hk⟩).transform.matrix) := by
  rw [worldState]
  simp only [dif_pos hk]
  exact List.get?_set_eq_of_lt _
    (by rw [worldState_length]; exact hk)

/-- C3: under the parent-before-child hypothesis, the cascade of
recalc_skin_matrices satisfies, in joint array order, world[i] =
world[parent[i]] * local(i) when a parent exists and world[i] =
outer_transform * local(i) otherwise, where local(i) is the product
from_translation * from_quat * from_scale of the joint's transform in that
fixed order, and the emitted skinning matrix is skin[i] = world[i] *
inverse_bind_matrix[i], in joint array order and of the same length. -/
theorem c3_skin_matrix_cascade (joints : List Joint) (outer_transform : Mat4)
    (hpar : ∀ i j p, joints.get? i = some j → j.parent = some p → p < i) :
    (world_transforms joints outer_transform).length = joints.length ∧
    (skin_matrices joints outer_transform).length = joints.length ∧
    ∀ i j, joints.get? i = some j →
      (world_transforms joints outer_transform).get? i = some
        (match j.parent with
         | some p =>
             ((world_transforms joints outer_transform).getD p Mat4.identity) *
               (Mat4.from_translation j.transform.translation *
                 Mat4.from_quat j.transform.rotation *
                 Mat4.from_scale j.transform.scale)
         | none =>
             outer_transform *
               (Mat4.from_translation j.transform.translation *
                 Mat4.from_quat j.transform.rotation *
                 Mat4.from_scale j.transform.scale)) ∧
      (skin_matrices joints outer_transform).get? i = some
        (((world_transforms joints outer_transform).getD i Mat4.identity) *
          j.inverse_bind_matrix) := by
  have hws := world_transforms_eq_worldState joints outer_transform
  have hlen : (world_transforms joints outer_transform).length = joints.length := by
    rw [hws, worldState_length]
  have hskinlen : (skin_matrices joints outer_transform).length = joints.length := by
    simp [skin_matrices, List.length_zip, hlen]
  refine ⟨hlen, hskinlen, fun i j hij => ?_⟩
  obtain ⟨hi, hget⟩ := List.get?_eq_some.mp hij
  have hstep : (world_transforms joints outer_transform).get? i = some
      (match j.parent with
       | some p =>
           ((world_transforms joints outer_transform).getD p Mat4.identity) *
             (Mat4.from_translation j.transform.translation *
               Mat4.from_quat j.transform.rotation *
               Mat4.from_scale j.transform.scale)
       | none =>
           outer_transform *
             (Mat4.from_translation j.transform.translation *
               Mat4.from_quat j.transform.rotation *
               Mat4.from_scale j.transform.scale)) := by
    rw [hws, worldState_stable joints outer_transform joints.length i hi,
      worldState_value joints outer_transform i hi, hget]
    cases hjp : j.parent with
    | none => rfl
    | some p =>
      have hpi : p < i := hpar i j p hij hjp
      have hpp : (worldState joints outer_transform i).get? p =
          (world_transforms joints outer_transform).get? p := by
        rw [worldState_stable joints outer_transform i p hpi, hws,
          worldState_stable joints outer_transform joints.length p
            (lt_trans hpi hi)]
      simp only [List.getD_eq_getD_get?, hpp, ← hws]
      rfl
  refine ⟨hstep, ?_⟩
  have hzip : ((world_transforms joints outer_transform).zip joints).get? i =
      some (((world_transforms joints outer_transform).get? i).getD Mat4.identity, j) := by
    refine (List.get?_zip_eq_some _ _ _ _).mpr ⟨?_, hij⟩
    rw [hstep]
    rfl
  simp only [skin_matrices, List.get?_map, hzip]
  simp only [List.getD_eq_getD_get?]
  rfl

/-- Witness for C3: the cascade test — root joint translated by (1,0,0),
child joint (parent 0) translated by (0,1,0), identity rotations, scales and
inverse-bind matrices, outer transform identity. -/
theorem c3_witness :
    (world_transforms
        [Joint.mk none Mat4.identity (Transform.mk ⟨1, 0, 0⟩ Quat.identity ⟨1, 1, 1⟩) 0,
         Joint.mk (some 0) Mat4.identity (Transform.mk ⟨0, 1, 0⟩ Quat.identity ⟨1, 1, 1⟩) 1]
        Mat4.identity).length = 2 ∧
    (skin_matrices
        [Joint.mk none Mat4.identity (Transform.mk ⟨1, 0, 0⟩ Quat.identity ⟨1, 1, 1⟩) 0,
         Joint.mk (some 0) Mat4.identity (Transform.mk ⟨0, 1, 0⟩ Quat.identity ⟨1, 1, 1⟩) 1]
        Mat4.identity).get? 1 = some
      (((world_transforms
          [Joint.mk none Mat4.identity (Transform.mk ⟨1, 0, 0⟩ Quat.identity ⟨1, 1, 1⟩) 0,
           Joint.mk (some 0) Mat4.identity (Transform.mk ⟨0, 1, 0⟩ Quat.identity ⟨1, 1, 1⟩) 1]
          Mat4.identity).getD 1 Mat4.identity) * Mat4.identity) := by
  have h := c3_skin_matrix_cascade
    [Joint.mk none Mat4.identity (Transform.mk ⟨1, 0, 0⟩ Quat.identity ⟨1, 1, 1⟩) 0,
     Joint.mk (some 0) Mat4.identity (Transform.mk ⟨0, 1, 0⟩ Quat.identity ⟨1, 1, 1⟩) 1]
    Mat4.identity
    (by
      intro i j p h1 h2
      rcases i with _ | _ | i
      · cases h1
        exact Option.noConfusion h2
      · cases h1
        cases h2
        omega
      · exact Option.noConfusion h1)
  exact ⟨h.1, (h.2.2 1
    (Joint.mk (some 0) Mat4.identity (Transform.mk ⟨0, 1, 0⟩ Quat.identity ⟨1, 1, 1⟩) 1)
    rfl).2⟩

theorem getD_of_get? {l : List ℚ} {i : Nat} {a : ℚ} (h : l.get? i = some a) :
    l.getD i 0 = a := by
  rw [List.getD_eq_getD_get?, h]
  rfl

theorem pairwise_get?_mono {l : List ℚ} (hp : List.Pairwise (· < ·) l)
    {i k : Nat} {a b : ℚ} (hia : l.get? i = some a) (hkb : l.get? k = some b)
    (hik : i ≤ k) : a ≤ b := by
  rcases Nat.eq_or_lt_of_le hik with h | h
  · subst h
    rw [hia] at hkb
    cases hkb
    exact le_refl a
  · obtain ⟨hi, hgi⟩ := List.get?_eq_some.mp hia
    obtain ⟨hk, hgk⟩ := List.get?_eq_some.mp hkb
    have hlt := (List.pairwise_iff_get.mp hp) ⟨i, hi⟩ ⟨k, hk⟩ h
    rw [hgi, hgk] at hlt
    exact le_of_lt hlt

theorem resolveAux_past_last (qnormalize : Quat → Quat)
    (qslerp : Quat → Quat → ℚ → Quat) (ch : Channel) (t : ℚ) (tl : ℚ)
    (hp : List.Pairwise (· < ·) ch.keyframe_times)
    (hl : ch.keyframe_times.get? (ch.keyframe_times.length - 1) = some tl)
    (htl : tl ≤ t) :
    ∀ d i, ch.keyframe_times.length - i = d → i < ch.keyframe_times.length →
      resolveChannelAux qnormalize qslerp ch t i =
        some (ch.get_fixed_transform (ch.keyframe_times.length - 1)) := by
  intro d
  induction d with
  | zero => intro i hd hi; omega
  | succ d ih =>
    intro i hd hi
    rw [resolveChannelAux]
    rw [dif_pos hi]
    by_cases hend : i = ch.keyframe_times.length - 1
    · rw [if_pos (Or.inl hend), hend]
    · have hi1 : i + 1 < ch.keyframe_times.length := by omega
      obtain ⟨b, hbv⟩ : ∃ b, ch.keyframe_times.get? (i + 1) = some b :=
        ⟨_, List.get?_eq_get hi1⟩
      have hble : b ≤ tl := pairwise_get?_mono hp hbv hl (by omega)
      have hc1 : ¬(i = ch.keyframe_times.length - 1 ∨
          (i = 0 ∧ t < ch.keyframe_times.getD i 0)) := by
        push_neg
        refine ⟨hend, fun hi0 => ?_⟩
        subst hi0
        obtain ⟨a, hav⟩ : ∃ a, ch.keyframe_times.get? 0 = some a :=
          ⟨_, List.get?_eq_get hi⟩
        rw [getD_of_get? hav]
        exact le_trans (pairwise_get?_mono hp hav hl (by omega)) htl
      rw [if_neg hc1]
      have hc2 : ¬(ch.keyframe_times.getD i 0 ≤ t ∧
          ch.keyframe_times.getD (i + 1) 0 > t) := by
        rw [getD_of_get? hbv]
        intro hcon
        exact absurd hcon.2 (not_lt.mpr (le_trans hble htl))
      rw [if_neg hc2]
      exact ih (i + 1) (by omega) hi1

theorem resolveAux_interval (qnormalize : Quat → Quat)
    (qslerp : Quat → Quat → ℚ → Quat) (ch : Channel) (t : ℚ)
    (hp : List.Pairwise (· < ·) ch.keyframe_times)
    {istar : Nat} {a b : ℚ}
    (ha : ch.keyframe_times.get? istar = some a)
    (hb : ch.keyframe_times.get? (istar + 1) = some b)
    (hat : a ≤ t) (htb : t < b) :
    ∀ d i, istar - i = d → i ≤ istar →
      resolveChannelAux qnormalize qslerp ch t i =
        some (ch.interpolate_transforms qnormalize qslerp istar
          ((t - a) / (b - a))) := by
  have hslen : istar + 1 < ch.keyframe_times.length :=
    (List.get?_eq_some.mp hb).1
  intro d
  induction d with
  | zero =>
    intro i hd hle
    have : i = istar := by omega
    subst this
    rw [resolveChannelAux, dif_pos (by omega)]
    have hc1 : ¬(i = ch.keyframe_times.length - 1 ∨
        (i = 0 ∧ t < ch.keyframe_times.getD i 0)) := by
      push_neg
      refine ⟨by omega, fun hi0 => ?_⟩
      rw [hi0, getD_of_get? (hi0 ▸ ha)]
      exact hat
    rw [if_neg hc1]
    rw [if_pos ⟨by rw [getD_of_get? ha]; exact hat,
      by rw [getD_of_get? hb]; exact htb⟩]
    rw [getD_of_get? ha, getD_of_get? hb]
  | succ d ih =>
    intro i hd hle
    have hilt : i < istar := by omega
    rw [resolveChannelAux, dif_pos (by omega)]
    obtain ⟨c, hcv⟩ : ∃ c, ch.keyframe_times.get? (i + 1) = some c :=
      ⟨_, List.get?_eq_get (by omega)⟩
    have hcle : c ≤ a := pairwise_get?_mono hp hcv ha (by omega)
    have hc1 : ¬(i = ch.keyframe_times.length - 1 ∨
        (i = 0 ∧ t < ch.keyframe_times.getD i 0)) := by
      push_neg
      refine ⟨by omega, fun hi0 => ?_⟩
      obtain ⟨e, hev⟩ : ∃ e, ch.keyframe_times.get? i = some e :=
        ⟨_, List.get?_eq_get (by omega)⟩
      rw [getD_of_get? hev]
      exact le_trans (pairwise_get?_mono hp hev ha (by omega)) hat
    rw [if_neg hc1]
    have hc2 : ¬(ch.keyframe_times.getD i 0 ≤ t ∧
        ch.keyframe_times.getD (i + 1) 0 > t) := by
      rw [getD_of_get? hcv]
      intro hcon
      exact absurd hcon.2 (not_lt.mpr (le_trans hcle hat))
    rw [if_neg hc2]
    exact ih (i + 1) (by omega) (by omega)

/-- C4: for a channel with strictly ascending keyframe times, the resolution
loop of apply_animation returns the first keyframe value un-interpolated when
the query time is before the first keyframe, the last keyframe value
un-interpolated when the time is at or past the last keyframe (never
extrapolating), and otherwise, at the index i with times[i] <= t <
times[i+1], the interpolation with coeff = (t - times[i]) / (times[i+1] -
times[i]); for translation and scale channels the fixed value is values[i]
and the interpolated value is the componentwise lerp of values[i] and
values[i+1]. -/
theorem c4_keyframe_resolution (qnormalize : Quat → Quat)
    (qslerp : Quat → Quat → ℚ → Quat) (ch : Channel) (t : ℚ)
    (hlin : ch.interpolation_type = .linear)
    (hp : List.Pairwise (· < ·) ch.keyframe_times) :
    (∀ t0, ch.keyframe_times.get? 0 = some t0 → t < t0 →
      resolveChannel qnormalize qslerp ch t =
        some (ch.get_fixed_transform 0)) ∧
    (∀ tl, ch.keyframe_times.get? (ch.keyframe_times.length - 1) = some tl →
      tl ≤ t →
      resolveChannel qnormalize qslerp ch t =
        some (ch.get_fixed_transform (ch.keyframe_times.length - 1))) ∧
    (∀ i a b, ch.keyframe_times.get? i = some a →
      ch.keyframe_times.get? (i + 1) = some b → a ≤ t → t < b →
      resolveChannel qnormalize qslerp ch t =
        some (ch.interpolate_transforms qnormalize qslerp i
          ((t - a) / (b - a)))) ∧
    (∀ vs i, ch.transforms = .translations vs →
      ch.get_fixed_transform i = .ok (.translation (vs.getD i Vec3.zero)) ∧
      ∀ coeff, ch.interpolate_transforms qnormalize qslerp i coeff =
        .ok (.translation
          ((vs.getD i Vec3.zero).lerp (vs.getD (i + 1) Vec3.zero) coeff))) ∧
    (∀ vs i, ch.transforms = .scales vs →
      ch.get_fixed_transform i = .ok (.scale (vs.getD i Vec3.zero)) ∧
      ∀ coeff, ch.interpolate_transforms qnormalize qslerp i coeff =
        .ok (.scale
          ((vs.getD i Vec3.zero).lerp (vs.getD (i + 1) Vec3.zero) coeff))) := by
  refine ⟨fun t0 h0 ht0 => ?_, fun tl hl htl => ?_, fun i a b ha hb hat htb => ?_,
    fun vs i htr => ?_, fun vs i htr => ?_⟩
  · have h0len : 0 < ch.keyframe_times.length := (List.get?_eq_some.mp h0).1
    rw [resolveChannel, resolveChannelAux, dif_pos h0len]
    rw [if_pos (Or.inr ⟨rfl, by rw [getD_of_get? h0]; exact ht0⟩)]
  · have hlen : ch.keyframe_times.length - 1 < ch.keyframe_times.length :=
      (List.get?_eq_some.mp hl).1
    rw [resolveChannel]
    exact resolveAux_past_last qnormalize qslerp ch t tl hp hl htl
      ch.keyframe_times.length 0 (by omega) (by omega)
  · rw [resolveChannel]
    exact resolveAux_interval qnormalize qslerp ch t hp ha hb hat htb i 0
      (by omega) (by omega)
  · constructor
    · simp only [Channel.get_fixed_transform, hlin, htr]
    · intro coeff
      simp only [Channel.interpolate_transforms, hlin, htr]
  · constructor
    · simp only [Channel.get_fixed_transform, hlin, htr]
    · intro coeff
      simp only [Channel.interpolate_transforms, hlin, htr]

/-- Witness for C4: the interpolation-boundary test — keyframe times
[0, 1, 2] with translation values [(0,0,0), (1,0,0), (1,1,0)]: resolve(0.5)
is (0.5, 0, 0), resolve(1.5) is (1, 0.5, 0), and resolve(-1) and resolve(5)
return the fixed first and last keyframe values. -/
theorem c4_witness :
    resolveChannel id (fun a _ _ => a)
        ⟨0, [0, 1, 2], .translations [⟨0, 0, 0⟩, ⟨1, 0, 0⟩, ⟨1, 1, 0⟩], .linear⟩
        (1/2) = some (.ok (.translation ⟨1/2, 0, 0⟩)) ∧
    resolveChannel id (fun a _ _ => a)
        ⟨0, [0, 1, 2], .translations [⟨0, 0, 0⟩, ⟨1, 0, 0⟩, ⟨1, 1, 0⟩], .linear⟩
        (3/2) = some (.ok (.translation ⟨1, 1/2, 0⟩)) ∧
    resolveChannel id (fun a _ _ => a)
        ⟨0, [0, 1, 2], .translations [⟨0, 0, 0⟩, ⟨1, 0, 0⟩, ⟨1, 1, 0⟩], .linear⟩
        (-1) = some (.ok (.translation ⟨0, 0, 0⟩)) ∧
    resolveChannel id (fun a _ _ => a)
        ⟨0, [0, 1, 2], .translations [⟨0, 0, 0⟩, ⟨1, 0, 0⟩, ⟨1, 1, 0⟩], .linear⟩
        5 = some (.ok (.translation ⟨1, 1, 0⟩)) := by
  have hp : List.Pairwise (· < ·) ([0, 1, 2] : List ℚ) := by
    norm_num [List.pairwise_cons]
  refine ⟨?_, ?_, ?_, ?_⟩
  · have h := c4_keyframe_resolution id (fun a _ _ => a)
      ⟨0, [0, 1, 2], .translations [⟨0, 0, 0⟩, ⟨1, 0, 0⟩, ⟨1, 1, 0⟩], .linear⟩
      (1/2) rfl hp
    rw [h.2.2.1 0 0 1 rfl rfl (by norm_num) (by norm_num),
      (h.2.2.2.1 [⟨0, 0, 0⟩, ⟨1, 0, 0⟩, ⟨1, 1, 0⟩] 0 rfl).2]
    norm_num [Vec3.lerp, Vec3.add, Vec3.sub, Vec3.smul]
  · have h := c4_keyframe_resolution id (fun a _ _ => a)
      ⟨0, [0, 1, 2], .translations [⟨0, 0, 0⟩, ⟨1, 0, 0⟩, ⟨1, 1, 0⟩], .linear⟩
      (3/2) rfl hp
    rw [h.2.2.1 1 1 2 rfl rfl (by norm_num) (by norm_num),
      (h.2.2.2.1 [⟨0, 0, 0⟩, ⟨1, 0, 0⟩, ⟨1, 1, 0⟩] 1 rfl).2]
    norm_num [Vec3.lerp, Vec3.add, Vec3.sub, Vec3.smul]
  · have h := c4_keyframe_resolution id (fun a _ _ => a)
      ⟨0, [0, 1, 2], .translations [⟨0, 0, 0⟩, ⟨1, 0, 0⟩, ⟨1, 1, 0⟩], .linear⟩
      (-1) rfl hp
    rw [h.1 0 rfl (by norm_num),
      (h.2.2.2.1 [⟨0, 0, 0⟩, ⟨1, 0, 0⟩, ⟨1, 1, 0⟩] 0 rfl).1]
    rfl
  · have h := c4_keyframe_resolution id (fun a _ _ => a)
      ⟨0, [0, 1, 2], .translations [⟨0, 0, 0⟩, ⟨1, 0, 0⟩, ⟨1, 1, 0⟩], .linear⟩
      5 rfl hp
    rw [h.2.1 2 rfl (by norm_num)]
    simp [Channel.get_fixed_transform]

end Leoric
